import Mathlib

/-!
Verification of the distributed (MPI) backend of the 2D Ising-model simulator.

The source in `src/main.cpp` contains two translation units: a serial `main`
(argument checking and the timing wrapper `initialise`) and the MPI backend
(`master_to_slaves_sync`, `simulate`, `initialise`, `main`).  The lattice class
`Surface` (`surface.h`: `clear`, `save`, `calculate_spin`, `calculate_energy`,
`calculate_magnetism`, the constructor) is not part of the sources; those
operations are modelled from the specification and marked as such below.

The embedding represents the lattice as a row-major list of rows of integer
spins.  Message passing is shallowly embedded: a blocking row message is a
`(tag, row)` pair, the per-sweep behaviour of every process is deterministic
given the injected acceptance decisions, and the coordinator's `MPI_ANY_SOURCE`
receives are modelled by quantifying over arbitrary arrival orders (list
permutations) of the workers' row messages.
-/

namespace Ising

/-- A spin grid: row-major list of rows, each row a list of spins. -/
abbrev Grid := List (List Int)

/-- Read a cell; out-of-range reads default to `0` (never reached on
well-formed grids). -/
def getCell (g : Grid) (x y : Nat) : Int := (g.getD y []).getD x 0

/-- Overwrite one cell in place (`List.set` is a no-op out of range). -/
def setCell (g : Grid) (x y : Nat) (v : Int) : Grid :=
  g.set y ((g.getD y []).set x v)

/-- Modelled from the spec: the four toroidal (wraparound) neighbours of a
cell summed (`surface.h` is not in the sources; §4.2 and the glossary define
the neighbourhood). -/
def neighbourSum (g : Grid) (size x y : Nat) : Int :=
  getCell g ((x + 1) % size) y + getCell g ((x + size - 1) % size) y +
    getCell g x ((y + 1) % size) + getCell g x ((y + size - 1) % size)

/-- Modelled from the spec: the energy delta of flipping cell `(x, y)` under
the nearest-neighbour Ising Hamiltonian (§4.2). -/
def deltaE (g : Grid) (size x y : Nat) : Int :=
  2 * getCell g x y * neighbourSum g size x y

/-- An injected acceptance decision: given the cell coordinates and the energy
delta of flipping it, decide the Metropolis outcome.  The spec (§1) treats the
pseudo-random generator as an injected uniform random source, so the oracle
stands for one fresh draw per visited cell. -/
abbrev AcceptOracle := Nat → Nat → Int → Bool

/-- Modelled from the spec: `Surface::calculate_spin` (§4.2) — flip the cell
in place when the acceptance decision for its energy delta is positive;
mutates exactly that one cell. -/
def calculate_spin (a : AcceptOracle) (size : Nat) (g : Grid) (x y : Nat) : Grid :=
  if a x y (deltaE g size x y) then setCell g x y (-(getCell g x y)) else g

/-- Modelled from the spec: the Metropolis acceptance criterion against a real
uniform draw in `[0,1)` — accept unconditionally when `ΔE ≤ 0`, otherwise
accept exactly when the draw is below `exp (-ΔE / temperature)` (§4.2). -/
def metropolisAccept (temperature : ℝ) (dE : Int) (draw : ℝ) : Prop :=
  dE ≤ 0 ∨ draw < Real.exp (-(dE : ℝ) / temperature)

/-- Modelled from the spec: `Surface::calculate_energy` (§4.3) — the
nearest-neighbour interaction energy with each edge counted once (right and
down neighbour per cell on the torus); for the all-aligned lattice this gives
`-2 * size²`, the convention fixed in §8. -/
def calculate_energy (g : Grid) (size : Nat) : Int :=
  -(((List.range size).flatMap (fun y => (List.range size).map (fun x =>
      getCell g x y * (getCell g ((x + 1) % size) y + getCell g x ((y + 1) % size))))).sum)

/-- Modelled from the spec: `Surface::calculate_magnetism` (§4.3) — the
absolute value of the summed spins divided by the cell count. -/
def calculate_magnetism (g : Grid) (size : Nat) : ℚ :=
  ((((List.range size).flatMap (fun y => (List.range size).map (fun x =>
      getCell g x y))).sum.natAbs : ℚ)) / ((size : ℚ) * (size : ℚ))

/-- The row partition quantity of `main` (line 191):
`rows_per_slave = rows / (world_size - 1)`, integer division, where
`world_size - 1` is the worker count. -/
def rows_per_slave (rows workerCount : Nat) : Nat := rows / workerCount

/-- First row of worker index `i` (rank `i + 1`): `start = (my_rank - 1) *
rows_per_slave` in `simulate` (line 95). -/
def workerStart (i rpw : Nat) : Nat := i * rpw

/-- One-past-last row of worker index `i`: `finish = start + rows_per_slave`
in `simulate` (line 96). -/
def workerFinish (i rpw : Nat) : Nat := workerStart i rpw + rpw

/-- The cells a worker visits, in the source's iteration order: rows
`start ≤ j < finish` outermost, columns `k` innermost (`simulate`
lines 103–107); pairs are `(x, y) = (k, j)` as in `int coords[2] = {k, j}`. -/
def cellEnum (size start finish : Nat) : List (Nat × Nat) :=
  (List.range' start (finish - start)).flatMap
    (fun j => (List.range size).map (fun k => (k, j)))

/-- Fold the in-place spin update over a list of cells: each update reads the
grid as mutated by all earlier updates of the same sweep. -/
def sweepUpTo (a : AcceptOracle) (size : Nat) (g : Grid) (l : List (Nat × Nat)) : Grid :=
  l.foldl (fun h c => calculate_spin a size h c.1 c.2) g

/-- One worker's whole compute stage for one sweep: the in-place row-major
update of its assigned rows (`simulate` lines 103–107). -/
def workerCompute (a : AcceptOracle) (size start finish : Nat) (g : Grid) : Grid :=
  sweepUpTo a size g (cellEnum size start finish)

/-- Follows the spec's words (§2, §4.4 `COMPUTE`), for comparison with
`workerCompute`: every cell update reads only the lattice state as of the
start of the sweep (the snapshot `g`), never another update of the same
sweep. -/
def workerComputeSnapshot (a : AcceptOracle) (size start finish : Nat) (g : Grid) : Grid :=
  (cellEnum size start finish).foldl
    (fun h c =>
      if a c.1 c.2 (deltaE g size c.1 c.2) then setCell h c.1 c.2 (-(getCell g c.1 c.2))
      else h) g

/-- The row messages one worker sends for one sweep: each updated row `j` of
its range, tagged with the row index `j` (`MPI_Send(lattice.surface[j], …, 0,
j, …)`, `simulate` line 108).  A row's contents are final once its inner loop
ends, since later updates only touch later rows. -/
def workerMsgs (a : AcceptOracle) (size start finish : Nat) (g : Grid) :
    List (Nat × List Int) :=
  (List.range' start (finish - start)).map
    (fun j => (j, (workerCompute a size start finish g).getD j []))

/-- Per-worker acceptance oracles for one sweep (worker index first). -/
abbrev WorkerFam := Nat → AcceptOracle

/-- Per-sweep, per-worker acceptance oracles. -/
abbrev SweepFam := Nat → WorkerFam

/-- All row messages of one sweep, in rank order; worker index `i` is rank
`i + 1` and owns rows `[i * rpw, i * rpw + rpw)`. -/
def allMsgs (af : WorkerFam) (size rpw W : Nat) (s : Grid) : List (Nat × List Int) :=
  (List.range W).flatMap
    (fun i => workerMsgs (af i) size (i * rpw) (i * rpw + rpw) s)

/-- The coordinator's `GATHER` receive loop (`simulate` lines 112–117): each
received row is stored at the lattice position given by its tag, the source
being ignored (`MPI_ANY_SOURCE`).  Arrival order is the list order of `ms`. -/
def gather (g : Grid) (ms : List (Nat × List Int)) : Grid :=
  ms.foldl (fun h m => h.set m.1 m.2) g

/-- The updated contents of covered row `j`: row `j` of the compute stage of
the worker owning `j` (worker index `j / rpw`). -/
def updRow (af : WorkerFam) (size rpw : Nat) (s : Grid) (j : Nat) : List Int :=
  (workerCompute (af (j / rpw)) size ((j / rpw) * rpw) ((j / rpw) * rpw + rpw) s).getD j []

/-- Global state of one run: the coordinator's authoritative grid, the grid
every worker holds at a sweep boundary (identical across workers, since each
sync sends the full lattice to each of them), and the statistics sequences. -/
structure SimState where
  master : Grid
  slaves : Grid
  avgEnergy : List Int
  avgMag : List ℚ

/-- One iteration of the loop in `simulate` (lines 98–120), global view: the
coordinator stores `avgEnergy[i]`/`avgMag[i]` from its current grid, the
workers update their rows from their own copies and send them, the
coordinator's `GATHER` overwrites every covered row, and `master_to_slaves_sync`
then replaces every worker's copy with the coordinator's grid. -/
def sweep (af : WorkerFam) (size rpw W : Nat) (st : SimState) : SimState :=
  { master := gather st.master (allMsgs af size rpw W st.slaves),
    slaves := gather st.master (allMsgs af size rpw W st.slaves),
    avgEnergy := st.avgEnergy ++ [calculate_energy st.master size],
    avgMag := st.avgMag ++ [calculate_magnetism st.master size] }

/-- `EXIT_SUCCESS` of `<cstdlib>`. -/
def EXIT_SUCCESS : Int := 0

/-- `EXIT_FAILURE` of `<cstdlib>`. -/
def EXIT_FAILURE : Int := 1

/-- The MPI `simulate` (lines 94–122), global view: `loops` sweeps, then
`return EXIT_SUCCESS` unconditionally. -/
def simulate (acc : SweepFam) (size rpw W loops : Nat) (st : SimState) :
    SimState × Int :=
  ((List.range loops).foldl (fun s i => sweep (acc i) size rpw W s) st, EXIT_SUCCESS)

/-- Modelled from the spec: `Surface::clear` (`surface.h` is not in the
sources) sets every spin to the uniform initial configuration; §8 fixes the
initial configuration as all spins `+1`. -/
def clearGrid (size : Nat) : Grid := List.replicate size (List.replicate size 1)

/-- The global state on entry to `simulate`: `main` (line 192) broadcasts the
freshly constructed grid `g0` to every worker, and only afterwards does
`initialise` (lines 134–137) clear the coordinator's own copy; so the workers
enter sweep 0 holding `g0` while the coordinator holds the cleared grid. -/
def initState (size : Nat) (g0 : Grid) : SimState :=
  { master := clearGrid size, slaves := g0, avgEnergy := [], avgMag := [] }

/-- The global state at the start of sweep `i` (after `i` full sweeps). -/
def stateAt (acc : SweepFam) (size rpw W : Nat) (g0 : Grid) (i : Nat) : SimState :=
  (List.range i).foldl (fun s k => sweep (acc k) size rpw W s) (initState size g0)

/-- Result of a complete distributed run. -/
structure RunResult where
  final : SimState
  complete : Bool
  status : Int

/-- A complete distributed run: `rows_per_slave = size / W` (line 191), the
initial broadcast and clear, `loops` sweeps, then `initialise` sets
`complete = true` (line 143) and propagates `simulate`'s status. -/
def mpiRun (acc : SweepFam) (size W loops : Nat) (g0 : Grid) : RunResult :=
  { final := (simulate acc size (size / W) W loops (initState size g0)).1,
    complete := true,
    status := (simulate acc size (size / W) W loops (initState size g0)).2 }

/-- Outcomes of the MPI `main` (lines 159–197). -/
inductive MpiMainResult where
  | usageError
  | nArgError
  | rowsArgError
  | divByZero (rows : Int)
  | completed (r : RunResult)

/-- The MPI `main` (lines 159–197): usage check, `n > 0` check, `rows > 0`
check, `Surface` construction, then `rows_per_slave = rows / (world_size - 1)`
— with `world_size = 1` (no workers) this divides by zero, which we model as
the explicit abort marker `divByZero`; there is no zero-worker check. -/
def mpiMain (argc : Nat) (n rows : Int) (world_size : Nat) (acc : SweepFam)
    (g0 : Grid) : MpiMainResult :=
  if argc < 4 ∨ 5 < argc then .usageError
  else if n ≤ 0 then .nArgError
  else if rows ≤ 0 then .rowsArgError
  else if world_size - 1 = 0 then .divByZero rows
  else .completed (mpiRun acc rows.toNat (world_size - 1) n.toNat g0)

/-- Whether an outcome is one of the explicit configuration-error exits (a
usage or argument message plus `EXIT_FAILURE`). -/
def isConfigFailure : MpiMainResult → Bool
  | .usageError => true
  | .nArgError => true
  | .rowsArgError => true
  | _ => false

/-- Outcomes of the serial `main` (lines 40–60): `ran` means the `Surface`
was constructed with the given size and the simulation was started. -/
inductive SerialMainResult where
  | usageError
  | nArgError
  | ran (n size : Int) (outputEnabled : Bool)

/-- The serial `main` (lines 40–60): usage check, `n > 0` check, then the
`Surface` is constructed directly from `atoi(argv[2])` — the size is never
validated. -/
def serialMain (argc : Nat) (n size : Int) : SerialMainResult :=
  if argc < 4 ∨ 5 < argc then .usageError
  else if n ≤ 0 then .nArgError
  else .ran n size (argc == 5)

/-- Concrete acceptance oracle: accept exactly the non-positive energy deltas
(the zero-temperature-limit behaviour of the Metropolis criterion). -/
def a0 : AcceptOracle := fun _ _ dE => decide (dE ≤ 0)

/-- The same oracle for every sweep and worker. -/
def acc0 : SweepFam := fun _ _ => a0

/-- Concrete 2×2 test grid. -/
def g1 : Grid := [[1, -1], [1, 1]]

/-! Helper lemmas about single-cell updates, the gather fold and the sweep
state evolution.  They are shared by the claim theorems below. -/

theorem getCell_setCell_ne (g : Grid) (v : Int) {x y x' y' : Nat}
    (h : (x', y') ≠ (x, y)) :
    getCell (setCell g x y v) x' y' = getCell g x' y' := by
  unfold getCell setCell
  rcases eq_or_ne y y' with rfl | hy
  · have hx : x ≠ x' := by rintro rfl; exact h rfl
    by_cases hlen : y < g.length
    · rw [List.getD_eq_getElem?_getD (g.set y _) y, List.getElem?_set, if_pos rfl,
        if_pos hlen]
      simp only [Option.getD_some]
      rw [List.getD_eq_getElem?_getD ((g.getD y []).set x v) x', List.getElem?_set,
        if_neg hx, ← List.getD_eq_getElem?_getD]
    · rw [List.getD_eq_getElem?_getD (g.set y _) y, List.getElem?_set, if_pos rfl,
        if_neg hlen]
      have hnone : g[y]? = none := List.getElem?_eq_none (by omega)
      rw [List.getD_eq_getElem?_getD g y, hnone]
  · rw [List.getD_eq_getElem?_getD (g.set y _) y', List.getElem?_set, if_neg hy,
      ← List.getD_eq_getElem?_getD]

theorem getCell_setCell_self (g : Grid) (v : Int) {x y : Nat}
    (hy : y < g.length) (hx : x < (g.getD y []).length) :
    getCell (setCell g x y v) x y = v := by
  unfold getCell setCell
  rw [List.getD_eq_getElem?_getD (g.set y _) y, List.getElem?_set, if_pos rfl,
    if_pos hy]
  simp only [Option.getD_some]
  rw [List.getD_eq_getElem?_getD ((g.getD y []).set x v) x, List.getElem?_set,
    if_pos rfl, if_pos hx]
  rfl

theorem getCell_calculate_spin_ne (a : AcceptOracle) (size : Nat) (g : Grid)
    {x y x' y' : Nat} (h : (x', y') ≠ (x, y)) :
    getCell (calculate_spin a size g x y) x' y' = getCell g x' y' := by
  unfold calculate_spin
  split
  · exact getCell_setCell_ne g _ h
  · rfl

theorem getCell_sweepUpTo_not_mem (a : AcceptOracle) (size : Nat)
    (l : List (Nat × Nat)) (g : Grid) {x y : Nat} (h : (x, y) ∉ l) :
    getCell (sweepUpTo a size g l) x y = getCell g x y := by
  induction l generalizing g with
  | nil => rfl
  | cons c tl ih =>
    have h1 : (x, y) ≠ c := fun hh => h (hh ▸ List.mem_cons_self c tl)
    have h2 : (x, y) ∉ tl := fun hh => h (List.mem_cons_of_mem _ hh)
    show getCell (sweepUpTo a size (calculate_spin a size g c.1 c.2) tl) x y = _
    rw [ih _ h2, getCell_calculate_spin_ne a size g (by simpa using h1)]

theorem gather_getD_not_mem (ms : List (Nat × List Int)) (g : Grid) {y : Nat}
    (h : y ∉ ms.map Prod.fst) :
    (gather g ms).getD y [] = g.getD y [] := by
  induction ms generalizing g with
  | nil => rfl
  | cons m tl ih =>
    have h1 : m.1 ≠ y := fun hh => h (by simp [hh])
    have h2 : y ∉ tl.map Prod.fst := fun hh => h (by simp [hh])
    show (gather (g.set m.1 m.2) tl).getD y [] = _
    rw [ih _ h2, List.getD_eq_getElem?_getD (g.set m.1 m.2) y, List.getElem?_set,
      if_neg h1, ← List.getD_eq_getElem?_getD]

theorem gather_getD_mem (ms : List (Nat × List Int)) (g : Grid) {y : Nat}
    {r : List Int} (hnd : (ms.map Prod.fst).Nodup) (hmem : (y, r) ∈ ms)
    (hy : y < g.length) :
    (gather g ms).getD y [] = r := by
  induction ms generalizing g with
  | nil => cases hmem
  | cons m tl ih =>
    have hnd' : (tl.map Prod.fst).Nodup := (List.nodup_cons.mp hnd).2
    rcases List.mem_cons.mp hmem with heq | hmem'
    · have hnot : y ∉ tl.map Prod.fst := by
        have := (List.nodup_cons.mp hnd).1
        rw [← heq] at this
        simpa using this
      show (gather (g.set m.1 m.2) tl).getD y [] = r
      rw [gather_getD_not_mem tl _ hnot, ← heq]
      rw [List.getD_eq_getElem?_getD (g.set y r) y, List.getElem?_set, if_pos rfl,
        if_pos hy]
      rfl
    · show (gather (g.set m.1 m.2) tl).getD y [] = r
      exact ih (g.set m.1 m.2) hnd' hmem' (by rw [List.length_set]; exact hy)

theorem map_fst_workerMsgs (a : AcceptOracle) (size start finish : Nat) (g : Grid) :
    (workerMsgs a size start finish g).map Prod.fst = List.range' start (finish - start) := by
  unfold workerMsgs
  rw [List.map_map]
  exact List.map_id _

theorem flatMap_range_range' (rpw W : Nat) :
    (List.range W).flatMap (fun i => List.range' (i * rpw) rpw) = List.range' 0 (W * rpw) := by
  induction W with
  | zero => simp
  | succ n ih =>
    rw [List.range_succ, List.flatMap_append, ih]
    have h1 : ([n] : List Nat).flatMap (fun i => List.range' (i * rpw) rpw)
        = List.range' (n * rpw) rpw := by simp
    have h2 : List.range' (n * rpw) rpw = List.range' (0 + 1 * (n * rpw)) rpw := by norm_num
    rw [h1, h2, List.range'_append]
    congr 1
    ring

theorem allMsgs_map_fst (af : WorkerFam) (size rpw W : Nat) (s : Grid) :
    (allMsgs af size rpw W s).map Prod.fst = List.range' 0 (W * rpw) := by
  unfold allMsgs
  rw [List.map_flatMap]
  simp only [map_fst_workerMsgs, Nat.add_sub_cancel_left]
  exact flatMap_range_range' rpw W

theorem mem_allMsgs (af : WorkerFam) (size rpw W : Nat) (s : Grid) {j : Nat}
    {r : List Int} (hrpw : 0 < rpw) (h : (j, r) ∈ allMsgs af size rpw W s) :
    j < W * rpw ∧ r = updRow af size rpw s j := by
  unfold allMsgs workerMsgs at h
  rcases List.mem_flatMap.mp h with ⟨i, hi, hmem⟩
  have hiW : i < W := List.mem_range.mp hi
  rcases List.mem_map.mp hmem with ⟨j', hj', hpair⟩
  rw [Nat.add_sub_cancel_left] at hj'
  obtain ⟨rfl, rfl⟩ : j' = j ∧ (workerCompute (af i) size (i * rpw) (i * rpw + rpw) s).getD j' [] = r := by
    exact ⟨congrArg Prod.fst hpair, congrArg Prod.snd hpair⟩
  have hr := List.mem_range'_1.mp hj'
  have hdiv : j' / rpw = i :=
    Nat.div_eq_of_lt_le hr.1 (by rw [add_one_mul]; exact hr.2)
  constructor
  · calc j' < i * rpw + rpw := hr.2
      _ = (i + 1) * rpw := (add_one_mul i rpw).symm
      _ ≤ W * rpw := Nat.mul_le_mul_right rpw hiW
  · rw [updRow, hdiv]

theorem updRow_mem_allMsgs (af : WorkerFam) (size rpw W : Nat) (s : Grid)
    {y : Nat} (hrpw : 0 < rpw) (hy : y < W * rpw) :
    (y, updRow af size rpw s y) ∈ allMsgs af size rpw W s := by
  unfold allMsgs workerMsgs
  apply List.mem_flatMap.mpr
  refine ⟨y / rpw, List.mem_range.mpr ((Nat.div_lt_iff_lt_mul hrpw).mpr hy), ?_⟩
  apply List.mem_map.mpr
  refine ⟨y, ?_, by rw [updRow]⟩
  rw [Nat.add_sub_cancel_left]
  have h2 : y < (y / rpw + 1) * rpw := (Nat.div_lt_iff_lt_mul hrpw).mp (Nat.lt_succ_self _)
  rw [add_one_mul] at h2
  exact List.mem_range'_1.mpr ⟨Nat.div_mul_le_self y rpw, by omega⟩

theorem stateAt_succ (acc : SweepFam) (size rpw W : Nat) (g0 : Grid) (i : Nat) :
    stateAt acc size rpw W g0 (i + 1) =
      sweep (acc i) size rpw W (stateAt acc size rpw W g0 i) := by
  unfold stateAt
  rw [List.range_succ, List.foldl_append]
  rfl

theorem avgEnergy_stateAt (acc : SweepFam) (size rpw W : Nat) (g0 : Grid) (i : Nat) :
    (stateAt acc size rpw W g0 i).avgEnergy =
      (List.range i).map (fun j => calculate_energy (stateAt acc size rpw W g0 j).master size) := by
  induction i with
  | zero => rfl
  | succ n ih =>
    rw [stateAt_succ, List.range_succ, List.map_append]
    show (stateAt acc size rpw W g0 n).avgEnergy ++
        [calculate_energy (stateAt acc size rpw W g0 n).master size] = _
    rw [ih, List.map_singleton]

theorem avgMag_stateAt (acc : SweepFam) (size rpw W : Nat) (g0 : Grid) (i : Nat) :
    (stateAt acc size rpw W g0 i).avgMag =
      (List.range i).map (fun j => calculate_magnetism (stateAt acc size rpw W g0 j).master size) := by
  induction i with
  | zero => rfl
  | succ n ih =>
    rw [stateAt_succ, List.range_succ, List.map_append]
    show (stateAt acc size rpw W g0 n).avgMag ++
        [calculate_magnetism (stateAt acc size rpw W g0 n).master size] = _
    rw [ih, List.map_singleton]

theorem mpiRun_final (acc : SweepFam) (size W loops : Nat) (g0 : Grid) :
    (mpiRun acc size W loops g0).final = stateAt acc size (size / W) W g0 loops := rfl

theorem getD_map_range {α : Type} (n i : Nat) (f : Nat → α) (d : α) (h : i < n) :
    ((List.range n).map f).getD i d = f i := by
  rw [List.getD_eq_getElem?_getD, List.getElem?_map, List.getElem?_range h]
  rfl

/-! The claim theorems. -/

/-- C3: the row partitioner gives worker index `i < workerCount` exactly the
half-open range `[i * rowsPerWorker, (i+1) * rowsPerWorker)` with
`rowsPerWorker = rows / workerCount` (integer division); the ranges are
pairwise disjoint; for `size = 100`, `workerCount = 4` they are `[0,25),
[25,50), [50,75), [75,100)` and cover all 100 rows; remainder rows when
`workerCount` does not divide `rows` lie in no worker's range. -/
theorem C3_row_partition :
    (∀ rows W i : Nat,
      workerStart i (rows_per_slave rows W) = i * (rows / W) ∧
      workerFinish i (rows_per_slave rows W) = (i + 1) * (rows / W)) ∧
    (∀ rpw i i' j : Nat, i ≠ i' →
      workerStart i rpw ≤ j → j < workerFinish i rpw →
      ¬(workerStart i' rpw ≤ j ∧ j < workerFinish i' rpw)) ∧
    (rows_per_slave 100 4 = 25 ∧
      workerStart 0 25 = 0 ∧ workerFinish 0 25 = 25 ∧
      workerStart 1 25 = 25 ∧ workerFinish 1 25 = 50 ∧
      workerStart 2 25 = 50 ∧ workerFinish 2 25 = 75 ∧
      workerStart 3 25 = 75 ∧ workerFinish 3 25 = 100 ∧
      (∀ j, j < 100 → ∃ i, i < 4 ∧ workerStart i 25 ≤ j ∧ j < workerFinish i 25)) ∧
    (∀ rows W i j : Nat, i < W → W * rows_per_slave rows W ≤ j →
      ¬(workerStart i (rows_per_slave rows W) ≤ j ∧
        j < workerFinish i (rows_per_slave rows W))) := by
  refine ⟨?_, ?_, ?_, ?_⟩
  · intro rows W i
    refine ⟨rfl, ?_⟩
    simp only [workerStart, workerFinish, rows_per_slave]
    ring
  · intro rpw i i' j hne h1 h2 hcon
    simp only [workerStart, workerFinish] at h1 h2 hcon
    rcases Nat.lt_or_ge i i' with hlt | hge
    · have hmul : (i + 1) * rpw ≤ i' * rpw := Nat.mul_le_mul_right rpw hlt
      rw [add_one_mul] at hmul
      linarith [hcon.1]
    · have hlt' : i' < i := lt_of_le_of_ne hge (Ne.symm hne)
      have hmul : (i' + 1) * rpw ≤ i * rpw := Nat.mul_le_mul_right rpw hlt'
      rw [add_one_mul] at hmul
      linarith [hcon.2]
  · refine ⟨rfl, rfl, rfl, rfl, rfl, rfl, rfl, rfl, rfl, ?_⟩
    decide
  · intro rows W i j hiW hj hcon
    have hmul : (i + 1) * rows_per_slave rows W ≤ W * rows_per_slave rows W :=
      Nat.mul_le_mul_right _ hiW
    rw [add_one_mul] at hmul
    simp only [workerStart, workerFinish] at hcon
    linarith [hcon.2]

/-- C3 witness: the formula evaluated at worker 2 of the 100/4 configuration,
disjointness of the first two ranges at row 10, and remainder row 9 of a
10-row, 3-worker configuration lying in no range. -/
theorem C3_row_partition_witness :
    workerFinish 2 (rows_per_slave 100 4) = 75 ∧
    ¬(workerStart 1 25 ≤ 10 ∧ 10 < workerFinish 1 25) ∧
    ¬(workerStart 0 (rows_per_slave 10 3) ≤ 9 ∧
      9 < workerFinish 0 (rows_per_slave 10 3)) := by
  refine ⟨?_, ?_, ?_⟩
  · have h := (C3_row_partition.1 100 4 2).2
    norm_num at h
    exact h
  · exact C3_row_partition.2.1 25 0 1 10 (by decide) (by decide) (by decide)
  · exact C3_row_partition.2.2.2 10 3 0 9 (by decide) (by decide)

/-- C4 counterexample: with a process group holding only the coordinator
(`world_size = 1`) and otherwise valid arguments, the MPI `main` is not one of
the explicit configuration-error exits: it reaches the partition computation
`rows / (world_size - 1)` — a division by zero — with the lattice already
constructed and no user-readable zero-worker message. -/
theorem C4_counterexample :
    mpiMain 4 5 10 1 acc0 g1 = MpiMainResult.divByZero 10 ∧
    isConfigFailure (mpiMain 4 5 10 1 acc0 g1) = false :=
  ⟨rfl, rfl⟩

/-- C4 amended: a worker count of zero is not detected: whenever the usage,
`n` and `rows` checks pass and `world_size = 1`, the MPI `main` constructs the
lattice and then aborts in the partition computation by dividing by zero,
with no configuration-error message. -/
theorem C4_zero_workers (argc : Nat) (n rows : Int) (acc : SweepFam) (g0 : Grid)
    (h1 : 4 ≤ argc) (h2 : argc ≤ 5) (h3 : 0 < n) (h4 : 0 < rows) :
    mpiMain argc n rows 1 acc g0 = MpiMainResult.divByZero rows := by
  unfold mpiMain
  rw [if_neg (by omega), if_neg (by omega), if_neg (by omega)]
  rfl

/-- C4 witness: the amended statement at `argc = 4`, `n = 7`, `rows = 3`. -/
theorem C4_zero_workers_witness :
    mpiMain 4 7 3 1 acc0 g1 = MpiMainResult.divByZero 3 :=
  C4_zero_workers 4 7 3 acc0 g1 (by decide) (by decide) (by decide) (by decide)

/-- C7 counterexample: the serial backend performs no size validation — with
valid `n = 1` and a zero or negative size the serial `main` constructs the
lattice and starts the run instead of failing before `INIT`. -/
theorem C7_counterexample :
    serialMain 4 1 0 = SerialMainResult.ran 1 0 false ∧
    serialMain 4 1 (-3) = SerialMainResult.ran 1 (-3) false :=
  ⟨rfl, rfl⟩

/-- C7 amended: only the distributed backend validates the size: the MPI
`main` rejects `rows ≤ 0` with a message and a failure exit before
constructing the lattice, while the serial `main` constructs the lattice with
whatever size `atoi(argv[2])` produced and proceeds to simulate. -/
theorem C7_size_validation (argc : Nat) (n rows : Int) (ws : Nat)
    (acc : SweepFam) (g0 : Grid) (h1 : 4 ≤ argc) (h2 : argc ≤ 5) (h3 : 0 < n)
    (h4 : rows ≤ 0) :
    mpiMain argc n rows ws acc g0 = MpiMainResult.rowsArgError ∧
    ∀ size : Int, serialMain 4 n size = SerialMainResult.ran n size false := by
  constructor
  · unfold mpiMain
    rw [if_neg (by omega), if_neg (by omega), if_pos h4]
  · intro size
    unfold serialMain
    rw [if_neg (by omega), if_neg (by omega)]
    rfl

/-- C7 witness: the amended statement at `n = 2`, `rows = 0`, `size = -1`. -/
theorem C7_size_validation_witness :
    mpiMain 4 2 0 3 acc0 g1 = MpiMainResult.rowsArgError ∧
    serialMain 4 2 (-1) = SerialMainResult.ran 2 (-1) false :=
  ⟨(C7_size_validation 4 2 0 3 acc0 g1 (by decide) (by decide) (by decide)
      (by decide)).1,
   (C7_size_validation 4 2 0 3 acc0 g1 (by decide) (by decide) (by decide)
      (by decide)).2 (-1)⟩

/-- C10: the distributed `simulate` returns `EXIT_SUCCESS` for every input
lattice and oracle — once the sweep loop is entered no condition produces any
other status — and a complete run propagates that status. -/
theorem C10_simulate_status :
    (∀ (acc : SweepFam) (size rpw W loops : Nat) (st : SimState),
      (simulate acc size rpw W loops st).2 = EXIT_SUCCESS) ∧
    (∀ (acc : SweepFam) (size W loops : Nat) (g0 : Grid),
      (mpiRun acc size W loops g0).status = EXIT_SUCCESS) :=
  ⟨fun _ _ _ _ _ _ => rfl, fun _ _ _ _ _ => rfl⟩

/-- C8: for a valid configuration (positive size, sweep count and worker
count, workers covering the lattice so every `GATHER` completes), a complete
run holds exactly `sweepCount` entries in each statistics sequence, appended
in sweep order, and `complete` is true. -/
theorem C8_stats_lengths (acc : SweepFam) (size W loops : Nat) (g0 : Grid)
    (h1 : 0 < size) (h2 : 0 < loops) (h3 : 0 < W) (h4 : size / W * W = size) :
    (mpiRun acc size W loops g0).final.avgEnergy.length = loops ∧
    (mpiRun acc size W loops g0).final.avgMag.length = loops ∧
    (mpiRun acc size W loops g0).complete = true := by
  refine ⟨?_, ?_, rfl⟩
  · rw [mpiRun_final, avgEnergy_stateAt, List.length_map, List.length_range]
  · rw [mpiRun_final, avgMag_stateAt, List.length_map, List.length_range]

/-- C8 witness: a size-2 single-worker run of one sweep. -/
theorem C8_stats_lengths_witness :
    (mpiRun acc0 2 1 1 g1).final.avgEnergy.length = 1 ∧
    (mpiRun acc0 2 1 1 g1).final.avgMag.length = 1 :=
  ⟨(C8_stats_lengths acc0 2 1 1 g1 (by decide) (by decide) (by decide)
      (by decide)).1,
   (C8_stats_lengths acc0 2 1 1 g1 (by decide) (by decide) (by decide)
      (by decide)).2.1⟩

/-- C1 counterexample: in a concrete one-sweep run, `avgEnergy[0]` is the
energy of the lattice before sweep 0's updates (`-8`, the cleared grid), not
the energy of the freshly reassembled post-gather lattice (`0`): the
coordinator stores the statistics before its `GATHER` receives. -/
theorem C1_counterexample :
    ¬((mpiRun acc0 2 1 1 g1).final.avgEnergy.getD 0 0 =
      calculate_energy (stateAt acc0 2 (2 / 1) 1 g1 1).master 2) := by
  decide

/-- C1 amended: for every sweep `i < loops` the coordinator computes
`avgEnergy[i]` and `avgMagnetism[i]` before sweep `i`'s `GATHER` receives,
over the lattice as of the start of sweep `i` (the end of sweep `i-1`; for
`i = 0`, the cleared initial lattice) — so the entries do not include sweep
`i`'s spin updates. -/
theorem C1_stats_before_gather (acc : SweepFam) (size W loops : Nat)
    (g0 : Grid) (i : Nat) (hi : i < loops) :
    (mpiRun acc size W loops g0).final.avgEnergy.getD i 0 =
      calculate_energy (stateAt acc size (size / W) W g0 i).master size ∧
    (mpiRun acc size W loops g0).final.avgMag.getD i 0 =
      calculate_magnetism (stateAt acc size (size / W) W g0 i).master size := by
  constructor
  · rw [mpiRun_final, avgEnergy_stateAt, getD_map_range _ _ _ _ hi]
  · rw [mpiRun_final, avgMag_stateAt, getD_map_range _ _ _ _ hi]

/-- C1 witness: the amended statement at sweep 0 of the concrete run. -/
theorem C1_stats_before_gather_witness :
    (mpiRun acc0 2 1 1 g1).final.avgEnergy.getD 0 0 =
      calculate_energy (stateAt acc0 2 (2 / 1) 1 g1 0).master 2 :=
  (C1_stats_before_gather acc0 2 1 1 g1 0 (by decide)).1

/-- C2 counterexample: at the start of sweep 0 the workers hold the
constructor state that `main` broadcast before the coordinator's `clear`, not
the cleared snapshot the coordinator holds: for the constructor grid
`[[-1]]`, worker copies and the coordinator's copy differ. -/
theorem C2_counterexample :
    ¬((stateAt acc0 1 1 1 [[-1]] 0).slaves = (stateAt acc0 1 1 1 [[-1]] 0).master) := by
  decide

/-- C2 amended: from sweep 1 onwards the invariant holds — at the start of
sweep `i ≥ 1` every worker's copy equals the coordinator's copy as of the end
of sweep `i-1` (both are the reassembled, re-broadcast grid) — but at sweep 0
the workers hold the pre-clear constructor grid `g0` while the coordinator
holds the cleared grid, because `main`'s initial broadcast (line 192)
precedes the clear in `initialise` (line 135). -/
theorem C2_sync_invariant (acc : SweepFam) (size rpw W : Nat) (g0 : Grid) :
    (∀ i, 1 ≤ i →
      (stateAt acc size rpw W g0 i).slaves = (stateAt acc size rpw W g0 i).master) ∧
    (stateAt acc size rpw W g0 0).slaves = g0 ∧
    (stateAt acc size rpw W g0 0).master = clearGrid size := by
  refine ⟨?_, rfl, rfl⟩
  intro i hi
  cases i with
  | zero => exact absurd hi (by decide)
  | succ n =>
    rw [stateAt_succ]
    rfl

/-- C2 witness: the invariant at the start of sweep 1 of a concrete run. -/
theorem C2_sync_invariant_witness :
    (stateAt acc0 2 2 1 g1 1).slaves = (stateAt acc0 2 2 1 g1 1).master :=
  (C2_sync_invariant acc0 2 2 1 g1).1 1 (by decide)

/-- C5: rows are tagged with their row index, the coordinator accepts any
source and stores each received row at its tag, so for every arrival order
(permutation of the workers' messages) the gathered lattice holds, row for
row, each covered row's locally updated contents and each untouched row's old
contents — nothing lost, duplicated or misplaced. -/
theorem C5_gather_reassembly (af : WorkerFam) (size rpw W : Nat) (M s : Grid)
    (ms : List (Nat × List Int)) (hrpw : 0 < rpw) (hcov : W * rpw ≤ size)
    (hM : M.length = size) (hperm : ms.Perm (allMsgs af size rpw W s))
    (y : Nat) (hy : y < size) :
    (gather M ms).getD y [] =
      if y < W * rpw then updRow af size rpw s y else M.getD y [] := by
  have htags : (ms.map Prod.fst).Perm (List.range' 0 (W * rpw)) := by
    have h := hperm.map Prod.fst
    rwa [allMsgs_map_fst] at h
  by_cases hcase : y < W * rpw
  · rw [if_pos hcase]
    have hnd : (ms.map Prod.fst).Nodup :=
      htags.nodup_iff.mpr (List.nodup_range' 0 (W * rpw))
    have hmem : (y, updRow af size rpw s y) ∈ ms :=
      hperm.mem_iff.mpr (updRow_mem_allMsgs af size rpw W s hrpw hcase)
    exact gather_getD_mem ms M hnd hmem (by omega)
  · rw [if_neg hcase]
    apply gather_getD_not_mem
    intro hmemtag
    have h1 : y ∈ List.range' 0 (W * rpw) := htags.mem_iff.mp hmemtag
    have h2 := List.mem_range'_1.mp h1
    omega

/-- C5 witness: a reversed arrival order on a concrete one-worker sweep. -/
theorem C5_gather_reassembly_witness :
    (gather (clearGrid 2) ((allMsgs (acc0 0) 2 2 1 g1).reverse)).getD 0 [] =
      if 0 < 1 * 2 then updRow (acc0 0) 2 2 g1 0 else (clearGrid 2).getD 0 [] :=
  C5_gather_reassembly (acc0 0) 2 2 1 (clearGrid 2) g1 _ (by decide) (by decide)
    (by decide) (List.reverse_perm _) 0 (by decide)

/-- C6 counterexample: within one sweep the in-place update differs from the
snapshot semantics the claim asserts: on the grid `[[1,-1],[1,1]]` the
zero-temperature-limit sweep of rows `[0,2)` produces `[[-1,1],[-1,-1]]` in
place but `[[-1,1],[1,-1]]` when every update reads only the start-of-sweep
state, so some update observed another update of the same sweep. -/
theorem C6_counterexample :
    ¬(workerCompute a0 2 0 2 g1 = workerComputeSnapshot a0 2 0 2 g1) := by
  decide

/-- C6 amended: a worker's updates are applied in place, sequentially in the
source's row-major order over its assigned rows, so an update may observe
earlier same-sweep updates; what does hold is that at the moment a cell is
updated, every cell not yet visited still carries its start-of-sweep
value. -/
theorem C6_inplace_reads (a : AcceptOracle) (size start finish : Nat)
    (g : Grid) (l1 l2 : List (Nat × Nat)) (c : Nat × Nat) (x y : Nat)
    (hsplit : cellEnum size start finish = l1 ++ c :: l2)
    (hnot : (x, y) ∉ l1) :
    workerCompute a size start finish g =
      sweepUpTo a size (calculate_spin a size (sweepUpTo a size g l1) c.1 c.2) l2 ∧
    getCell (sweepUpTo a size g l1) x y = getCell g x y := by
  constructor
  · rw [workerCompute, hsplit, sweepUpTo, List.foldl_append, List.foldl_cons]
    rfl
  · exact getCell_sweepUpTo_not_mem a size l1 g hnot

/-- C6 witness: the second cell of the first row of a 2×2 sweep reads the
start-of-sweep value of the not-yet-visited cell `(1, 0)`. -/
theorem C6_inplace_reads_witness :
    getCell (sweepUpTo a0 2 g1 [(0, 0)]) 1 0 = getCell g1 1 0 :=
  (C6_inplace_reads a0 2 0 2 g1 [(0, 0)] [(0, 1), (1, 1)] (1, 0) 1 0
    (by decide) (by decide)).2

/-- C9: the spin update is deterministic given the draw and mutates exactly
one cell; a non-positive energy delta is always accepted regardless of the
draw; for a positive delta the flip is accepted exactly when the draw is
below `exp (-ΔE / T)`, so any draw at or above that threshold rejects it. -/
theorem C9_metropolis (T : ℝ) (dE : Int) (draw : ℝ) (hT : 0 < T) :
    (dE ≤ 0 → metropolisAccept T dE draw) ∧
    (0 < dE → (metropolisAccept T dE draw ↔ draw < Real.exp (-(dE : ℝ) / T))) ∧
    (∀ (a : AcceptOracle) (size : Nat) (g : Grid) (x y x' y' : Nat),
      (x', y') ≠ (x, y) →
      getCell (calculate_spin a size g x y) x' y' = getCell g x' y') ∧
    (∀ (a : AcceptOracle) (size : Nat) (g : Grid) (x y : Nat),
      a x y (deltaE g size x y) = true → y < g.length →
      x < (g.getD y []).length →
      getCell (calculate_spin a size g x y) x y = -(getCell g x y)) := by
  refine ⟨fun h => Or.inl h, ?_, ?_, ?_⟩
  · intro hpos
    constructor
    · rintro (hle | hlt)
      · exact absurd hle (by omega)
      · exact hlt
    · exact fun h => Or.inr h
  · intro a size g x y x' y' h
    exact getCell_calculate_spin_ne a size g h
  · intro a size g x y hacc hy hx
    unfold calculate_spin
    rw [if_pos hacc]
    exact getCell_setCell_self g _ hy hx

/-- C9 witness: acceptance at a negative delta, locality and the flipped
value on a concrete grid, and rejection at `ΔE = 4`, `T = 1`, draw `1`. -/
theorem C9_metropolis_witness :
    metropolisAccept 1 (-1) (1 / 2) ∧
    getCell (calculate_spin a0 2 g1 0 0) 1 0 = getCell g1 1 0 ∧
    getCell (calculate_spin a0 2 g1 0 0) 0 0 = -(getCell g1 0 0) ∧
    ¬metropolisAccept 1 4 1 := by
  refine ⟨?_, ?_, ?_, ?_⟩
  · exact (C9_metropolis 1 (-1) (1 / 2) (by norm_num)).1 (by decide)
  · exact (C9_metropolis 1 (-1) (1 / 2) (by norm_num)).2.2.1 a0 2 g1 0 0 1 0
      (by decide)
  · exact (C9_metropolis 1 (-1) (1 / 2) (by norm_num)).2.2.2 a0 2 g1 0 0
      (by decide) (by decide) (by decide)
  · intro h
    have hiff := (C9_metropolis 1 4 1 (by norm_num)).2.1 (by norm_num)
    have h1 := hiff.mp h
    have h2 : Real.exp (-((4 : Int) : ℝ) / 1) ≤ 1 :=
      Real.exp_le_one_iff.mpr (by norm_num)
    linarith

end Ising
